import Mathlib

/-!
Verification of the item ingestion and catalog-query core of the
digital-folklore-archive repository: the text normalizer and search-token
generator (`src/lib/catalog/searchTokens.ts`), the sequential ID allocator
(`src/lib/api/idGenerator.ts`), the fixed-window rate limiter
(`src/lib/api/rateLimit.ts`), and the catalog query engine
(`src/lib/catalog/queries.ts`).

JavaScript strings are embedded as lists of characters (`Str`).  The
JavaScript runtime primitives used by the code (`toLowerCase`,
`String.prototype.normalize('NFKC')`, the regexp classes `\p{L}`, `\p{N}`,
`\s`, `trim`, `padStart`, number-to-string conversion) are embedded
faithfully on the character domain exercised by the theorems in this file
(the ASCII range plus U+2116 NUMERO SIGN); each embedding documents the
Unicode data it encodes.
-/

namespace DTA

/-- JavaScript strings, embedded as lists of characters. -/
abbrev Str := List Char

/-- Character data of a Lean string literal, used to write `Str` literals. -/
def str (s : String) : Str := s.data

/-- The JavaScript regexp class `\s` (and the `trim` whitespace set),
restricted to the ASCII range: tab, LF, VT, FF, CR and space.  (The
non-ASCII members of `\s` never appear in this development.) -/
def isJsWs (c : Char) : Bool :=
  c = ' ' || c = '\t' || c = '\n' || c = Char.ofNat 11 || c = Char.ofNat 12 || c = '\r'

/-- The regexp class `\p{L}` restricted to the character domain of this
development: on ASCII exactly the letters `A`–`Z`, `a`–`z`. -/
def isJsLetter (c : Char) : Bool :=
  ('a' ≤ c && c ≤ 'z') || ('A' ≤ c && c ≤ 'Z')

/-- The regexp class `\p{N}` restricted to the character domain of this
development: on ASCII exactly the digits `0`–`9`. -/
def isJsNumber (c : Char) : Bool :=
  '0' ≤ c && c ≤ '9'

/-- A character survives `replace(/[^\p{L}\p{N}\s]/gu, '')` iff it is a
letter, a number or whitespace. -/
def keepChar (c : Char) : Bool :=
  isJsLetter c || isJsNumber c || isJsWs c

/-- JavaScript `toLowerCase` on the character domain of this development:
ASCII uppercase letters map to their lowercase forms; every other character
in the domain (ASCII non-letters, and U+2116 NUMERO SIGN, which has no
lowercase mapping) is fixed. -/
def jsToLower (c : Char) : Char :=
  if 'A' ≤ c && c ≤ 'Z' then Char.ofNat (c.toNat + 32) else c

/-- Unicode NFKC on the character domain of this development, as a
per-character map: every ASCII character is NFKC-invariant, and U+2116
NUMERO SIGN has the compatibility decomposition `<compat> 004E 006F`
("No") per UnicodeData.txt.  On strings over this domain (which contain no
combining marks and no composable sequences) string-level NFKC is the
concatenation of the per-character images. -/
def nfkcChar (c : Char) : Str :=
  if c = '№' then str "No" else [c]

/-- String-level NFKC on the modeled domain. -/
def jsNfkc (l : Str) : Str := l.flatMap nfkcChar

/-- `replace(/\s+/g, ' ')`: each maximal run of whitespace characters is
replaced by a single space.  The flag records whether the previous
character was part of a whitespace run. -/
def collapseWsAux : Bool → Str → Str
  | _, [] => []
  | prevWs, c :: rest =>
    if isJsWs c then
      if prevWs then collapseWsAux true rest
      else ' ' :: collapseWsAux true rest
    else c :: collapseWsAux false rest

/-- `replace(/\s+/g, ' ')` on a whole string. -/
def collapseWs (l : Str) : Str := collapseWsAux false l

/-- JavaScript `String.prototype.trim`: strip whitespace from both ends. -/
def trimWs (l : Str) : Str :=
  ((l.dropWhile isJsWs).reverse.dropWhile isJsWs).reverse

/-- `normalizeText` from `src/lib/catalog/searchTokens.ts`:
lowercase, NFKC-normalize, strip every character that is not a letter,
number or whitespace, collapse whitespace runs to a single space, trim. -/
def normalizeText (text : Str) : Str :=
  trimWs (collapseWs (((text.map jsToLower).flatMap nfkcChar).filter keepChar))

/-- JavaScript `split(' ')`: split on single space characters, keeping
empty fragments (`"a  b".split(' ') = ["a","","b"]`, `"".split(' ') = [""]`).
The accumulator holds the current fragment in reverse. -/
def splitOnSpaceAux (cur : Str) : Str → List Str
  | [] => [cur.reverse]
  | c :: rest =>
    if c = ' ' then cur.reverse :: splitOnSpaceAux [] rest
    else splitOnSpaceAux (c :: cur) rest

/-- JavaScript `split(' ')` on a whole string. -/
def splitOnSpace (l : Str) : List Str := splitOnSpaceAux [] l

/-- `[...new Set(xs)]`: deduplication keeping the first occurrence of each
element, in order.  The accumulator holds the elements already emitted. -/
def dedupFirstAux (seen : List Str) : List Str → List Str
  | [] => []
  | a :: l =>
    if seen.contains a then dedupFirstAux seen l
    else a :: dedupFirstAux (a :: seen) l

/-- `[...new Set(xs)]` on a whole list. -/
def dedupFirst (l : List Str) : List Str := dedupFirstAux [] l

/-- The default comparator of JavaScript `Array.prototype.sort` on strings:
lexicographic comparison of the code-unit sequences (which, for the
basic-plane characters appearing in this development, is lexicographic
comparison of code points). -/
def strLe : Str → Str → Bool
  | [], _ => true
  | _ :: _, [] => false
  | a :: as, b :: bs =>
    if a < b then true
    else if b < a then false
    else strLe as bs

/-- Insert an element into a sorted list, in front of the first element it
compares less-or-equal to (so an element inserted later never overtakes an
equal element inserted earlier: the sort below is stable, as
`Array.prototype.sort` is required to be). -/
def insertLe {α : Type} (le : α → α → Bool) (a : α) : List α → List α
  | [] => [a]
  | b :: l => if le a b then a :: b :: l else b :: insertLe le a l

/-- Stable insertion sort by the comparator `le`. -/
def sortLe {α : Type} (le : α → α → Bool) : List α → List α
  | [] => []
  | a :: l => insertLe le a (sortLe le l)

-- ============================================================================
-- Data model (`src/types/firestore.ts`)
-- ============================================================================

/-- `ItemType` — closed vocabulary. -/
inductive ItemType where
  | KAIDAN | URBAN_LEGEND | CREEPYPASTA | CHAIN_MEME | ORIGINAL | COMMENTARY
  deriving DecidableEq

/-- `Language` — closed vocabulary. -/
inductive Language where
  | JA | EN | OTHER
  deriving DecidableEq

/-- `SourceConfidence` — closed vocabulary. -/
inductive SourceConfidence where
  | PRIMARY | SECONDARY | UNKNOWN
  deriving DecidableEq

/-- `DocStatus` — closed vocabulary. -/
inductive DocStatus where
  | PUBLISHED | DRAFT
  deriving DecidableEq

/-- `Motif` — closed vocabulary of motif tags. -/
inductive Motif where
  | PLACE | ROAD_TUNNEL | FOREST_MOUNTAIN | WATER | ROOM_APARTMENT
  | MISSING_PERSON | STALKER_OBSERVER | ENTITY | DOPPELGANGER | CHILD_FAMILY
  | MEDIA_DEVICE | RITUAL_RULES | WARNING_CHAIN | EXPERIMENT_REPORT | IDENTITY
  deriving DecidableEq

/-- `Region` — closed vocabulary. -/
inductive Region where
  | JAPAN | NA | EU | ASIA_EX_JAPAN | GLOBAL_UNKNOWN
  deriving DecidableEq

/-- `Medium` — closed vocabulary. -/
inductive Medium where
  | FORUM_BBS | SNS | VIDEO | WIKI_ARCHIVE | PRINT_ORAL | UNKNOWN
  deriving DecidableEq

/-- The string literal denoted by a `Motif` value (in TypeScript, `Motif`
is a union of these string literals, and `extractSeeds` pushes the motif
strings themselves as seeds). -/
def motifStr : Motif → Str
  | .PLACE => str "PLACE"
  | .ROAD_TUNNEL => str "ROAD_TUNNEL"
  | .FOREST_MOUNTAIN => str "FOREST_MOUNTAIN"
  | .WATER => str "WATER"
  | .ROOM_APARTMENT => str "ROOM_APARTMENT"
  | .MISSING_PERSON => str "MISSING_PERSON"
  | .STALKER_OBSERVER => str "STALKER_OBSERVER"
  | .ENTITY => str "ENTITY"
  | .DOPPELGANGER => str "DOPPELGANGER"
  | .CHILD_FAMILY => str "CHILD_FAMILY"
  | .MEDIA_DEVICE => str "MEDIA_DEVICE"
  | .RITUAL_RULES => str "RITUAL_RULES"
  | .WARNING_CHAIN => str "WARNING_CHAIN"
  | .EXPERIMENT_REPORT => str "EXPERIMENT_REPORT"
  | .IDENTITY => str "IDENTITY"

/-- `BilingualText`: up to two language-tagged variants. -/
structure BilingualText where
  ja : Option Str
  en : Option Str
  deriving DecidableEq

/-- `BodyText`: bilingual text extended with an `original` variant. -/
structure BodyText where
  ja : Option Str
  en : Option Str
  original : Option Str
  deriving DecidableEq

/-- `ItemDoc` — the canonical stored item record.  `createdAt` and
`updatedAt` are Firestore timestamps, embedded as the epoch-millisecond
value that `.toDate().getTime()` returns for them. -/
structure ItemDoc where
  id : Str
  type : ItemType
  language : Language
  confidence : SourceConfidence
  title : BilingualText
  originalTitle : Option Str
  body : BodyText
  firstSeen : Option Str
  sourceName : Option Str
  sourceUrl : Option Str
  sourceArchiveUrl : Option Str
  motifs : List Motif
  formats : Option (List Str)
  region : Option Region
  medium : Option Medium
  annotationCount : Option Int
  revisionCount : Option Int
  status : DocStatus
  createdAt : Int
  updatedAt : Int
  searchTokens : Option (List Str)

-- ============================================================================
-- Search token generation (`src/lib/catalog/searchTokens.ts`)
-- ============================================================================

/-- `generatePrefixTokens(text, minLength, maxLength?)`: normalize, split
into words, and for each word of length `L` emit every prefix of length
`minLength .. min(maxLength, L)`; deduplicate. -/
def generatePrefixTokens (text : Str) (minLength : Nat) (maxLength : Option Nat) :
    List Str :=
  let normalizedText := normalizeText text
  if normalizedText = [] then []
  else
    let words := (splitOnSpace normalizedText).filter (fun w => w.length > 0)
    let tokens := words.flatMap (fun word =>
      let mx := maxLength.getD word.length
      (List.range' minLength (min mx word.length + 1 - minLength)).map
        (fun i => word.take i))
    dedupFirst tokens

/-- The guard `if (s)` of JavaScript applied to an optional string field:
the branch is taken only when the field is present and non-empty. -/
def seedOfOptField (o : Option Str) : List Str :=
  match o with
  | none => []
  | some s => if s = [] then [] else [s]

/-- The `replace` call stripping an initial `DTA-` from the id (the regexp
is anchored at the start, so at most the leading occurrence is dropped). -/
def dropDtaHead (id : Str) : Str :=
  if (str "DTA-").isPrefixOf id then id.drop 4 else id

/-- `extractSeeds(item)`: the seed texts for tokenization, in push order —
the id, the id without its `DTA-` head, both title variants, the original
title, the source name, and the motif tags; finally seeds that are empty
or whitespace-only are dropped. -/
def extractSeeds (item : ItemDoc) : List Str :=
  let seeds : List Str :=
    (if item.id = [] then []
     else
       [item.id] ++
       (let numericPart := dropDtaHead item.id
        if numericPart = [] then [] else [numericPart])) ++
    seedOfOptField item.title.ja ++
    seedOfOptField item.title.en ++
    seedOfOptField item.originalTitle ++
    seedOfOptField item.sourceName ++
    (if item.motifs.length > 0 then item.motifs.map motifStr else [])
  seeds.filter (fun s => !(s = []) && !(trimWs s = []))

/-- `generateSearchTokens(item)`: for each seed, the full normalized seed
(when non-empty) followed by its prefix tokens with prefix-length ceiling
10; deduplicated, cleared of empties, and sorted. -/
def generateSearchTokens (item : ItemDoc) : List Str :=
  let seeds := extractSeeds item
  let allTokens := seeds.flatMap (fun seed =>
    (let normalized := normalizeText seed
     if normalized = [] then [] else [normalized]) ++
    generatePrefixTokens seed 1 (some 10))
  sortLe strLe ((dedupFirst allTokens).filter (fun t => t.length > 0))

/-- `normalizeSearchQuery(query)` — alias for `normalizeText`. -/
def normalizeSearchQuery (query : Str) : Str := normalizeText query

/-- `matchesSearchQuery(searchTokens, query)`: an empty normalized query
matches everything; otherwise some stored token must equal the normalized
query or start with it. -/
def matchesSearchQuery (searchTokens : List Str) (query : Str) : Bool :=
  let normalizedQuery := normalizeSearchQuery query
  if normalizedQuery = [] then true
  else searchTokens.any (fun token =>
    token == normalizedQuery || normalizedQuery.isPrefixOf token)


-- ============================================================================
-- Sequential ID allocator (`src/lib/api/idGenerator.ts`)
-- ============================================================================

/-- Decimal digits of a natural number, most significant first, as
JavaScript `String(n)` produces for a non-negative integer.  `fuel`
bounds the recursion; it is always called with `fuel > n`. -/
def natToDigitsAux : Nat → Nat → Str
  | 0, _ => []
  | fuel + 1, n =>
    if n < 10 then [Nat.digitChar n]
    else natToDigitsAux fuel (n / 10) ++ [Nat.digitChar (n % 10)]

/-- JavaScript `String(n)` for a non-negative integer `n`. -/
def jsNatToStr (n : Nat) : Str := natToDigitsAux (n + 1) n

/-- JavaScript `String(n)` for an integer `n` (a leading minus sign for
negative values). -/
def jsIntToStr (n : Int) : Str :=
  if n < 0 then '-' :: jsNatToStr (-n).toNat else jsNatToStr n.toNat

/-- JavaScript `padStart(6, '0')`. -/
def pad6 (s : Str) : Str := List.replicate (6 - s.length) '0' ++ s

/-- `formatItemId(num)`: `"DTA-" + String(num).padStart(6, '0')`. -/
def formatItemId (num : Int) : Str := str "DTA-" ++ pad6 (jsIntToStr num)

/-- The regexp class `\d`. -/
def isDigitChar (c : Char) : Bool := '0' ≤ c && c ≤ '9'

/-- `parseInt(digits, 10)` on a string of decimal digit characters. -/
def parseDigits (l : Str) : Nat :=
  l.foldl (fun acc c => acc * 10 + (c.toNat - 48)) 0

/-- `parseItemId(id)`: match the anchored regexp requiring the literal
head `DTA-` followed by exactly six decimal digits, and parse the digits
in base 10; `null` (here `none`) when the regexp does not match. -/
def parseItemId (id : Str) : Option Int :=
  if (str "DTA-").isPrefixOf id && (id.drop 4).length == 6
      && (id.drop 4).all isDigitChar then
    some (parseDigits (id.drop 4) : Nat)
  else none

/-- `isValidItemId(id)`: the same anchored regexp as a boolean test. -/
def isValidItemId (id : Str) : Bool :=
  (str "DTA-").isPrefixOf id && (id.drop 4).length == 6
    && (id.drop 4).all isDigitChar

/-- The value stored in the counter document's `count` field, as the
JavaScript dynamic checks of `generateItemId` see it: the field can be
absent or null (`data?.count ?? 0` yields 0), an integral number, a
non-integral number (`Number.isInteger` false, e.g. `1.5` or `NaN`), or a
non-number value (`typeof` not `'number'`). -/
inductive CounterVal where
  | undefVal
  | intNum (n : Int)
  | nonIntNum
  | nonNum
  deriving DecidableEq

/-- The counter document `/counters/items`. -/
structure CounterDoc where
  count : CounterVal
  deriving DecidableEq

/-- The two failures `generateItemId` can raise inside its transaction:
`'Invalid counter value in database'` (the spec's `CounterCorruptError`)
and `'ID counter overflow: maximum capacity reached'` (the spec's
`CounterOverflowError`). -/
inductive AllocError where
  | counterCorrupt
  | counterOverflow
  deriving DecidableEq

/-- The read-and-validate phase of the transaction: an absent document or
absent field reads as 0; an integral number passes validation; a
non-integral number or non-number raises the corrupt-counter error.  Note
the code's validation — `typeof currentCount !== 'number' ||
!Number.isInteger(currentCount)` — accepts every integer, negative ones
included. -/
def readCount : Option CounterDoc → Except AllocError Int
  | none => .ok 0
  | some d =>
    match d.count with
    | .undefVal => .ok 0
    | .intNum n => .ok n
    | .nonIntNum => .error .counterCorrupt
    | .nonNum => .error .counterCorrupt

/-- The body of the Firestore transaction run by `generateItemId`, as an
atomic step on the counter-document state (Firestore transactions are
serializable, and a thrown error aborts the transaction without
committing, so the state is returned unchanged on error).  The observed
pre-increment value `currentCount` is returned alongside the formatted id
so that atomicity statements can speak about it. -/
def generateItemIdTx (st : Option CounterDoc) :
    Except AllocError (Int × Str) × Option CounterDoc :=
  match readCount st with
  | .error e => (.error e, st)
  | .ok currentCount =>
    let newCount := currentCount + 1
    if newCount > 999999 then (.error .counterOverflow, st)
    else (.ok (currentCount, formatItemId newCount), some ⟨.intNum newCount⟩)

/-- `n` serialized `generateItemId` transactions, returning each call's
outcome in order together with the final counter-document state. -/
def runAllocs : Nat → Option CounterDoc → List (Except AllocError (Int × Str)) × Option CounterDoc
  | 0, st => ([], st)
  | n + 1, st =>
    let step := generateItemIdTx st
    let rest := runAllocs n step.2
    (step.1 :: rest.1, rest.2)


-- ============================================================================
-- Rate limiter (`src/lib/api/rateLimit.ts`)
-- ============================================================================

/-- Rate limiter configuration (window length in milliseconds, maximum
requests per window). -/
structure RateLimitConfig where
  windowMs : Int
  maxRequests : Int
  deriving DecidableEq

/-- Per-client tracking record: requests counted in the current window and
the window's start time (epoch milliseconds). -/
structure ClientRecord where
  count : Int
  windowStart : Int
  deriving DecidableEq

/-- The semantic content of a `checkRateLimit` result: the `allowed` flag,
the `remaining` and `reset` values (also echoed in the `X-RateLimit-*`
headers), and the `Retry-After` header value when the request is denied. -/
structure RateLimitResult where
  allowed : Bool
  remaining : Int
  reset : Int
  retryAfter : Option Int
  deriving DecidableEq

/-- `Math.floor(a / 1000)` on an integer `a`. -/
def floorDiv1000 (a : Int) : Int := a / 1000

/-- `Math.ceil(a / 1000)` on an integer `a`. -/
def ceilDiv1000 (a : Int) : Int := -((-a) / 1000)

/-- `checkRateLimit` for one client identifier, as a function of the
client's stored record (or its absence), and the current time `now`
(`Date.now()`, epoch milliseconds).  The periodic cleanup pass only
deletes records whose window has already expired, which the fresh-window
branch treats identically to an absent record, so it is not modeled
separately. -/
def checkRateLimit (config : RateLimitConfig) (record? : Option ClientRecord)
    (now : Int) : RateLimitResult × ClientRecord :=
  let fresh : RateLimitResult × ClientRecord :=
    ({ allowed := true
       remaining := config.maxRequests - 1
       reset := floorDiv1000 (now + config.windowMs)
       retryAfter := none },
     { count := 1, windowStart := now })
  match record? with
  | none => fresh
  | some record =>
    if config.windowMs ≤ now - record.windowStart then fresh
    else
      let count := record.count + 1
      let remaining := max 0 (config.maxRequests - count)
      let allowed := decide (count ≤ config.maxRequests)
      ({ allowed := allowed
         remaining := remaining
         reset := floorDiv1000 (record.windowStart + config.windowMs)
         retryAfter :=
           if allowed then none
           else some (ceilDiv1000 (record.windowStart + config.windowMs - now)) },
       { count := count, windowStart := record.windowStart })

/-- A sequence of `checkRateLimit` calls for one client at the given
times, threading the client's record through the in-memory store. -/
def runRateChecks (config : RateLimitConfig) :
    List Int → Option ClientRecord → List RateLimitResult × Option ClientRecord
  | [], st => ([], st)
  | t :: ts, st =>
    let step := checkRateLimit config st t
    let rest := runRateChecks config ts (some step.2)
    (step.1 :: rest.1, rest.2)

-- ============================================================================
-- Catalog query engine (`src/lib/catalog/queries.ts`)
-- ============================================================================

/-- Sort keys of the catalog query engine. -/
inductive SortField where
  | updatedAt | createdAt | firstSeen | annotationCount
  deriving DecidableEq

/-- Sort directions. -/
inductive SortOrder where
  | asc | desc
  deriving DecidableEq

/-- A sort specification (key and direction). -/
structure SortSpec where
  field : SortField
  order : SortOrder
  deriving DecidableEq

/-- `CatalogFilters`: per-dimension value sets and an optional free-text
query.  An absent (`undefined`) filter array and an empty one are treated
identically by `applyFilters` (`filters.x && filters.x.length > 0`), so
both are embedded as the empty list. -/
structure CatalogFilters where
  type : List ItemType
  confidence : List SourceConfidence
  language : List Language
  firstSeen : List Str
  motif : List Motif
  search : Option Str

/-- `CatalogQueryOptions` with the destructuring defaults of
`queryCatalogItems` already applied (`sort = {updatedAt, desc}`,
`limit = 20`, `offset = 0`). -/
structure CatalogQueryOptions where
  filters : CatalogFilters
  sort : SortSpec
  limit : Nat
  offset : Nat

/-- `CatalogQueryResult`. -/
structure CatalogQueryResult where
  items : List ItemDoc
  total : Nat
  hasMore : Bool

/-- `applyFilters`: each facet dimension is an any-of membership test,
applied only when the requested set is non-empty; the motif test is a
set-intersection test; the search test normalizes the query and applies
`matchesSearchQuery` to the stored tokens (items without stored tokens
never match). -/
def applyFilters (items : List ItemDoc) (filters : CatalogFilters) : List ItemDoc :=
  let f1 :=
    if filters.type.length > 0 then
      items.filter (fun item => filters.type.contains item.type)
    else items
  let f2 :=
    if filters.confidence.length > 0 then
      f1.filter (fun item => filters.confidence.contains item.confidence)
    else f1
  let f3 :=
    if filters.language.length > 0 then
      f2.filter (fun item => filters.language.contains item.language)
    else f2
  let f4 :=
    if filters.firstSeen.length > 0 then
      f3.filter (fun item =>
        match item.firstSeen with
        | some fs => filters.firstSeen.contains fs
        | none => false)
    else f3
  let f5 :=
    if filters.motif.length > 0 then
      f4.filter (fun item => item.motifs.any (fun m => filters.motif.contains m))
    else f4
  match filters.search with
  | none => f5
  | some q =>
    if trimWs q = [] then f5
    else
      let normalizedQuery := normalizeSearchQuery q
      f5.filter (fun item =>
        match item.searchTokens with
        | some tokens => matchesSearchQuery tokens normalizedQuery
        | none => false)

/-- The fixed era rank table of `applySorting`'s `firstSeen` case; an
absent or unrecognized value ranks 99 (`eraOrder[x] || 99`). -/
def eraRank : Option Str → Int
  | none => 99
  | some s =>
    if s = str "Pre-1999" then 1
    else if s = str "2000s" then 2
    else if s = str "2010s" then 3
    else if s = str "2020s" then 4
    else if s = str "Unknown" then 5
    else 99

/-- The comparator value computed by `applySorting` for a sort key
(`a.annotationCount || 0` reads an absent count as 0). -/
def sortComparison (field : SortField) (a b : ItemDoc) : Int :=
  match field with
  | .updatedAt => a.updatedAt - b.updatedAt
  | .createdAt => a.createdAt - b.createdAt
  | .firstSeen => eraRank a.firstSeen - eraRank b.firstSeen
  | .annotationCount => a.annotationCount.getD 0 - b.annotationCount.getD 0

/-- `applySorting`: stable sort by the configured comparator, negated for
descending order. -/
def applySorting (items : List ItemDoc) (field : SortField) (order : SortOrder) :
    List ItemDoc :=
  sortLe (fun a b =>
    decide ((match order with
             | .desc => -(sortComparison field a b)
             | .asc => sortComparison field a b) ≤ 0)) items

/-- `queryCatalogItems`: filter, count the total, sort, and slice
`[offset, offset + limit)`.  The item set that the code reads from the
store (`getAllItems()`) is passed explicitly as `allItems`. -/
def queryCatalogItems (allItems : List ItemDoc) (options : CatalogQueryOptions) :
    CatalogQueryResult :=
  let items := applyFilters allItems options.filters
  let total := items.length
  let sorted := applySorting items options.sort.field options.sort.order
  let paginated := (sorted.drop options.offset).take options.limit
  { items := paginated
    total := total
    hasMore := decide (options.offset + options.limit < total) }


-- ============================================================================
-- Theorems
-- ============================================================================

/-- C6: calling the allocator when the stored counter is at 999,999 fails
with the overflow error, and the counter document is not mutated (the
thrown error aborts the Firestore transaction, so nothing commits). -/
theorem allocator_overflow_no_mutation :
    generateItemIdTx (some ⟨.intNum 999999⟩) =
      (.error .counterOverflow, some ⟨.intNum 999999⟩) := rfl

/-- C5 (refuting evidence): with a stored counter value of `-2` — not a
non-negative integer — the allocator does not fail with the
corrupt-counter error: its validation only checks `typeof` and
`Number.isInteger`, so it commits `count = -1` and returns the string
`DTA-0000-1`, which the module's own `isValidItemId` rejects. -/
theorem allocator_accepts_negative_counter :
    generateItemIdTx (some ⟨.intNum (-2)⟩) =
      (.ok (-2, str "DTA-0000-1"), some ⟨.intNum (-1)⟩) ∧
    isValidItemId (str "DTA-0000-1") = false := ⟨rfl, by decide⟩

/-- C3: `matchesSearchQuery` returns true exactly when the normalized
query is empty, or some stored token equals the normalized query or has it
as a literal prefix. -/
theorem matchesSearchQuery_spec (tokens : List Str) (q : Str) :
    matchesSearchQuery tokens q = true ↔
      (normalizeText q = [] ∨
        ∃ t ∈ tokens, t = normalizeText q ∨ normalizeText q <+: t) := by
  unfold matchesSearchQuery normalizeSearchQuery
  by_cases h : normalizeText q = []
  · simp [h]
  · simp [h, List.any_eq_true, List.isPrefixOf_iff_prefix]

/-- C8: `queryCatalogItems` reports as `total` the number of items passing
the filters before pagination, returns as `items` the
`[offset, offset+limit)` slice of the filtered-and-sorted list, and sets
`hasMore` exactly when `offset + limit < total`. -/
theorem queryCatalogItems_pagination (allItems : List ItemDoc)
    (options : CatalogQueryOptions) :
    (queryCatalogItems allItems options).total
        = (applyFilters allItems options.filters).length ∧
    (queryCatalogItems allItems options).items
        = ((applySorting (applyFilters allItems options.filters)
              options.sort.field options.sort.order).drop
            options.offset).take options.limit ∧
    ((queryCatalogItems allItems options).hasMore = true ↔
      options.offset + options.limit
        < (applyFilters allItems options.filters).length) := by
  refine ⟨rfl, rfl, ?_⟩
  simp [queryCatalogItems]

/-- C9: the generated token set is a function of exactly the item's id,
title, original title, source name and motifs — two items agreeing on
those five fields receive identical token lists, whatever their other
fields hold. -/
theorem generateSearchTokens_pure (i1 i2 : ItemDoc)
    (hid : i1.id = i2.id) (htitle : i1.title = i2.title)
    (horig : i1.originalTitle = i2.originalTitle)
    (hsrc : i1.sourceName = i2.sourceName)
    (hmot : i1.motifs = i2.motifs) :
    generateSearchTokens i1 = generateSearchTokens i2 := by
  have hseeds : extractSeeds i1 = extractSeeds i2 := by
    unfold extractSeeds
    rw [hid, htitle, horig, hsrc, hmot]
  unfold generateSearchTokens
  rw [hseeds]

/-- An item used to witness C9 (and C4): a published kaidan. -/
def sampleItemA : ItemDoc :=
  { id := str "DTA-000128", type := .KAIDAN, language := .JA,
    confidence := .PRIMARY, title := ⟨some (str "Kunekune"), none⟩,
    originalTitle := none, body := ⟨some (str "body a"), none, none⟩,
    firstSeen := some (str "2000s"), sourceName := some (str "2ch"),
    sourceUrl := none, sourceArchiveUrl := none, motifs := [.ENTITY],
    formats := none, region := some .JAPAN, medium := none,
    annotationCount := some 3, revisionCount := some 1,
    status := .PUBLISHED, createdAt := 100, updatedAt := 200,
    searchTokens := none }

/-- A second item agreeing with `sampleItemA` on exactly the five
token-relevant fields and differing everywhere else. -/
def sampleItemB : ItemDoc :=
  { id := str "DTA-000128", type := .CREEPYPASTA, language := .EN,
    confidence := .UNKNOWN, title := ⟨some (str "Kunekune"), none⟩,
    originalTitle := none, body := ⟨none, some (str "other body"), none⟩,
    firstSeen := none, sourceName := some (str "2ch"),
    sourceUrl := some (str "https a"), sourceArchiveUrl := none,
    motifs := [.ENTITY], formats := some [str "copypasta"],
    region := none, medium := some .SNS, annotationCount := none,
    revisionCount := none, status := .DRAFT, createdAt := 5,
    updatedAt := 7, searchTokens := some [str "stale"] }

/-- Witness for C9 at concrete items: `sampleItemA` and `sampleItemB`
differ in type, language, confidence, body, firstSeen, urls, formats,
region, medium, counts, status, timestamps and stored tokens, yet receive
the same generated token list. -/
theorem generateSearchTokens_pure_witness :
    generateSearchTokens sampleItemA = generateSearchTokens sampleItemB :=
  generateSearchTokens_pure sampleItemA sampleItemB rfl rfl rfl rfl rfl


/-- Appending one character to a digit string multiplies the parsed value
by ten and adds the digit. -/
lemma parseDigits_append_last (l : Str) (c : Char) :
    parseDigits (l ++ [c]) = parseDigits l * 10 + (c.toNat - 48) := by
  simp [parseDigits, List.foldl_append]

/-- For `n < 10`, `Nat.digitChar n` is a decimal digit character whose
value is `n`. -/
lemma digitChar_val (n : Nat) (h : n < 10) :
    isDigitChar (Nat.digitChar n) = true ∧ (Nat.digitChar n).toNat - 48 = n := by
  interval_cases n <;> exact ⟨by decide, by decide⟩

/-- The digit string produced by `natToDigitsAux` consists of digit
characters, parses back to the input, and has at most `k` characters when
the input is below `10 ^ k`. -/
lemma natToDigitsAux_spec :
    ∀ (fuel n : Nat), n < fuel →
      (natToDigitsAux fuel n).all isDigitChar = true ∧
      parseDigits (natToDigitsAux fuel n) = n ∧
      ∀ k, n < 10 ^ k → (natToDigitsAux fuel n).length ≤ max 1 k := by
  intro fuel
  induction fuel with
  | zero => omega
  | succ fuel ih =>
    intro n hn
    by_cases h10 : n < 10
    · refine ⟨?_, ?_, ?_⟩
      · simp [natToDigitsAux, h10, (digitChar_val n h10).1]
      · simp [natToDigitsAux, h10, parseDigits, (digitChar_val n h10).2]
      · intro k _
        simp only [natToDigitsAux, if_pos h10, List.length_singleton]
        exact le_max_left 1 k
    · have hdiv : n / 10 < fuel := by
        have h1 : n / 10 < n := Nat.div_lt_self (by omega) (by omega)
        omega
      obtain ⟨ha, hp, hl⟩ := ih (n / 10) hdiv
      have hmod : n % 10 < 10 := Nat.mod_lt n (by omega)
      refine ⟨?_, ?_, ?_⟩
      · simp [natToDigitsAux, h10, List.all_append, ha, (digitChar_val _ hmod).1]
      · rw [natToDigitsAux, if_neg h10, parseDigits_append_last, hp,
          (digitChar_val _ hmod).2]
        have := Nat.div_add_mod n 10
        omega
      · intro k hk
        have hk2 : 2 ≤ k := by
          by_contra hlt
          have : 10 ^ k ≤ 10 := by
            interval_cases k <;> simp
          omega
        have hdivk : n / 10 < 10 ^ (k - 1) := by
          rw [Nat.div_lt_iff_lt_mul (by omega : 0 < 10)]
          calc n < 10 ^ k := hk
            _ = 10 ^ (k - 1) * 10 := by
              rw [← pow_succ]
              congr 1
              omega
        have := hl (k - 1) hdivk
        rw [natToDigitsAux, if_neg h10, List.length_append,
          List.length_singleton]
        have hmax : max 1 (k - 1) = k - 1 := max_eq_right (by omega)
        omega

/-- Leading zero characters do not change the parsed value. -/
lemma parseDigits_replicate_zero (k : Nat) (d : Str) :
    parseDigits (List.replicate k '0' ++ d) = parseDigits d := by
  induction k with
  | zero => rfl
  | succ k ih =>
    rw [List.replicate_succ, List.cons_append]
    simpa [parseDigits] using ih

/-- Round trip of the allocator's id formatting and parsing: over the
whole 6-digit capacity, `parseItemId` recovers the number `formatItemId`
printed. -/
lemma parse_format_roundtrip (n : Int) (h0 : 0 ≤ n) (h1 : n ≤ 999999) :
    parseItemId (formatItemId n) = some n := by
  obtain ⟨m, rfl⟩ := Int.eq_ofNat_of_zero_le h0
  have hm : m ≤ 999999 := by exact_mod_cast h1
  have hfmt : jsIntToStr (m : Int) = jsNatToStr m := by
    simp [jsIntToStr, Int.toNat_ofNat]
  obtain ⟨hall, hparse, hlen⟩ := natToDigitsAux_spec (m + 1) m (by omega)
  set d := jsNatToStr m with hd
  have hall' : d.all isDigitChar = true := hall
  have hparse' : parseDigits d = m := hparse
  have hlen' : d.length ≤ 6 := by
    have := hlen 6 (by omega)
    simpa using this
  have hpadlen : (pad6 d).length = 6 := by
    simp only [pad6, List.length_append, List.length_replicate]
    omega
  have hpadall : (pad6 d).all isDigitChar = true := by
    simp only [pad6, List.all_append, hall', Bool.and_true]
    exact List.all_eq_true.mpr (fun c hc => by
      rw [List.eq_of_mem_replicate hc]; decide)
  have hdrop4 : ∀ x : Str, (str "DTA-" ++ x).drop 4 = x := fun _ => rfl
  have hdrop : (formatItemId (m : Int)).drop 4 = pad6 d := by
    rw [formatItemId, hfmt]
    exact hdrop4 _
  rw [parseItemId]
  rw [hdrop]
  have hpre : (str "DTA-").isPrefixOf (formatItemId (m : Int)) = true := by
    rw [List.isPrefixOf_iff_prefix, formatItemId]
    exact List.prefix_append _ _
  rw [hpre, hpadlen, hpadall]
  simp only [beq_self_eq_true, Bool.and_true, Bool.true_and, if_true]
  rw [pad6, parseDigits_replicate_zero, hparse']

/-- C10: for every integer `0 ≤ n ≤ 999999`, `parseItemId` inverts
`formatItemId`. -/
theorem parseItemId_inverts_formatItemId (n : Int) (h0 : 0 ≤ n)
    (h1 : n ≤ 999999) : parseItemId (formatItemId n) = some n :=
  parse_format_roundtrip n h0 h1

/-- Witness for C10 at `n = 128`. -/
theorem parseItemId_inverts_formatItemId_witness :
    parseItemId (formatItemId 128) = some 128 :=
  parseItemId_inverts_formatItemId 128 (by decide) (by decide)


/-- Serialized allocator runs: starting from any state that reads as
count `c`, the `n` transaction outcomes are exactly
`ok (c, DTA-(c+1)), ok (c+1, DTA-(c+2)), …` — each call observes the
committed value of the previous one. -/
lemma runAllocs_spec :
    ∀ (n : Nat) (st : Option CounterDoc) (c : Int),
      readCount st = .ok c → 0 ≤ c → c + n ≤ 999999 →
      (runAllocs n st).1 =
        (List.range n).map
          (fun i => .ok (c + (i : Int), formatItemId (c + (i : Int) + 1))) := by
  intro n
  induction n with
  | zero => intro st c _ _ _; simp [runAllocs]
  | succ n ih =>
    intro st c hread hc hcap
    have hnotover : ¬ c + 1 > 999999 := by
      have : (n : Int) ≥ 0 := Int.natCast_nonneg n
      push_cast at hcap
      omega
    have hstep : generateItemIdTx st =
        (.ok (c, formatItemId (c + 1)), some ⟨.intNum (c + 1)⟩) := by
      simp [generateItemIdTx, hread, hnotover]
    have hrest := ih (some ⟨.intNum (c + 1)⟩) (c + 1) rfl (by omega)
      (by push_cast at hcap ⊢; omega)
    show (generateItemIdTx st).1 :: (runAllocs n (generateItemIdTx st).2).1 = _
    rw [hstep]
    simp only [hrest, List.range_succ_eq_map, List.map_cons, List.map_map]
    congr 1
    · simp
    · apply List.map_congr_left
      intro i _
      simp only [Function.comp_apply]
      push_cast
      ring_nf

/-- C1: from a freshly-initialized counter (document absent, `count`
field absent, or `count = 0`), `n ≤ 999999` serialized allocator
transactions all succeed, returning exactly the ids
`DTA-000001, DTA-000002, …` in order — a contiguous increasing sequence —
with pairwise-distinct ids, and the observed pre-increment counter values
`0, 1, …, n-1` are pairwise distinct (no two transactions observe and
commit the same pre-increment value). -/
theorem allocator_sequential_ids (n : Nat) (hn : n ≤ 999999)
    (st0 : Option CounterDoc)
    (h0 : st0 = none ∨ st0 = some ⟨.undefVal⟩ ∨ st0 = some ⟨.intNum 0⟩) :
    (runAllocs n st0).1 =
      (List.range n).map
        (fun i => .ok ((i : Int), formatItemId ((i : Int) + 1))) ∧
    ((runAllocs n st0).1.filterMap
      (fun r => r.toOption.map Prod.snd)).Nodup ∧
    ((runAllocs n st0).1.filterMap
      (fun r => r.toOption.map Prod.fst)).Nodup := by
  have hread : readCount st0 = .ok 0 := by
    rcases h0 with h | h | h <;> subst h <;> rfl
  have hmain := runAllocs_spec n st0 0 hread le_rfl
    (by omega)
  simp only [zero_add] at hmain
  refine ⟨hmain, ?_, ?_⟩
  · rw [hmain, List.filterMap_map]
    have : ∀ i : Nat,
        ((fun r : Except AllocError (Int × Str) => r.toOption.map Prod.snd) ∘
          (fun i : Nat => Except.ok ((i : Int), formatItemId ((i : Int) + 1)))) i
          = some (formatItemId ((i : Int) + 1)) := fun i => rfl
    rw [List.filterMap_congr (fun i _ => this i)]
    have hcomp : (fun i : Nat => some (formatItemId ((i : Int) + 1)))
        = some ∘ (fun i : Nat => formatItemId ((i : Int) + 1)) := rfl
    rw [hcomp, List.filterMap_eq_map]
    refine (List.nodup_range n).map_on ?_
    intro i hi j hj hfmt
    have hi6 : (i : Int) + 1 ≤ 999999 := by
      have := List.mem_range.mp hi; omega
    have hj6 : (j : Int) + 1 ≤ 999999 := by
      have := List.mem_range.mp hj; omega
    have h1 := parse_format_roundtrip ((i : Int) + 1) (by positivity) hi6
    have h2 := parse_format_roundtrip ((j : Int) + 1) (by positivity) hj6
    rw [hfmt, h2] at h1
    have : (i : Int) = (j : Int) := by
      injection h1 with h
      omega
    exact_mod_cast this
  · rw [hmain, List.filterMap_map]
    have : ∀ i : Nat,
        ((fun r : Except AllocError (Int × Str) => r.toOption.map Prod.fst) ∘
          (fun i : Nat => Except.ok ((i : Int), formatItemId ((i : Int) + 1)))) i
          = some ((i : Int)) := fun i => rfl
    rw [List.filterMap_congr (fun i _ => this i)]
    have hcomp : (fun i : Nat => some ((i : Int)))
        = some ∘ (fun i : Nat => ((i : Int))) := rfl
    rw [hcomp, List.filterMap_eq_map]
    refine (List.nodup_range n).map_on ?_
    intro i _ j _ hij
    exact_mod_cast hij

/-- Witness for C1: three allocations from an absent counter document
yield observed values `0, 1, 2` and ids `DTA-000001..3`. -/
theorem allocator_sequential_ids_witness :
    (runAllocs 3 none).1 =
      (List.range 3).map
        (fun i => .ok ((i : Int), formatItemId ((i : Int) + 1))) ∧
    ((runAllocs 3 none).1.filterMap
      (fun r => r.toOption.map Prod.snd)).Nodup ∧
    ((runAllocs 3 none).1.filterMap
      (fun r => r.toOption.map Prod.fst)).Nodup :=
  allocator_sequential_ids 3 (by decide) none (Or.inl rfl)


/-- Membership in the deduplicated list: everything from the input that
was not already seen, and nothing else. -/
lemma mem_dedupFirstAux (x : Str) :
    ∀ (l seen : List Str), x ∈ dedupFirstAux seen l ↔ (x ∈ l ∧ x ∉ seen) := by
  intro l
  induction l with
  | nil => intro seen; simp [dedupFirstAux]
  | cons a l ih =>
    intro seen
    unfold dedupFirstAux
    by_cases ha : seen.contains a
    · have ha' : a ∈ seen := List.elem_iff.mp ha
      rw [if_pos ha, ih]
      constructor
      · exact fun ⟨h1, h2⟩ => ⟨List.mem_cons_of_mem a h1, h2⟩
      · rintro ⟨h1, h2⟩
        rcases List.mem_cons.mp h1 with rfl | h1
        · exact absurd ha' h2
        · exact ⟨h1, h2⟩
    · rw [if_neg ha, List.mem_cons, ih]
      constructor
      · rintro (rfl | ⟨h1, h2⟩)
        · refine ⟨List.mem_cons_self x l, fun hx => ?_⟩
          exact ha (List.elem_iff.mpr hx)
        · refine ⟨List.mem_cons_of_mem a h1, fun hx => h2 ?_⟩
          exact List.mem_cons_of_mem a hx
      · rintro ⟨h1, h2⟩
        by_cases hxa : x = a
        · exact .inl hxa
        · have h1' : x ∈ l := by
            rcases List.mem_cons.mp h1 with h | h
            · exact absurd h hxa
            · exact h
          refine .inr ⟨h1', fun hx => ?_⟩
          rcases List.mem_cons.mp hx with h | h
          · exact hxa h
          · exact h2 h

/-- Membership survives deduplication. -/
lemma mem_dedupFirst (x : Str) (l : List Str) : x ∈ dedupFirst l ↔ x ∈ l := by
  rw [dedupFirst, mem_dedupFirstAux]
  simp

/-- Membership in an insertion step of the stable sort. -/
lemma mem_insertLe {α : Type} (le : α → α → Bool) (x a : α) :
    ∀ l : List α, x ∈ insertLe le a l ↔ x = a ∨ x ∈ l := by
  intro l
  induction l with
  | nil => simp [insertLe]
  | cons b l ih =>
    unfold insertLe
    by_cases h : le a b
    · rw [if_pos h]
      simp [List.mem_cons]
    · rw [if_neg h]
      simp only [List.mem_cons, ih]
      tauto

/-- Membership survives the stable sort. -/
lemma mem_sortLe {α : Type} (le : α → α → Bool) (x : α) :
    ∀ l : List α, x ∈ sortLe le l ↔ x ∈ l := by
  intro l
  induction l with
  | nil => simp [sortLe]
  | cons a l ih =>
    unfold sortLe
    rw [mem_insertLe, ih, List.mem_cons]

/-- C4: for every seed extracted from an item whose normalized form is
non-empty, that normalized form appears verbatim among the generated
search tokens. -/
theorem generateSearchTokens_complete (item : ItemDoc) (s : Str)
    (hs : s ∈ extractSeeds item) (hn : normalizeText s ≠ []) :
    normalizeText s ∈ generateSearchTokens item := by
  unfold generateSearchTokens
  rw [mem_sortLe, List.mem_filter]
  constructor
  · rw [mem_dedupFirst, List.mem_flatMap]
    refine ⟨s, hs, ?_⟩
    rw [if_neg hn]
    exact List.mem_append_left _ (List.mem_singleton.mpr rfl)
  · simpa [List.length_pos] using hn

/-- Witness for C4: the id seed `DTA-000128` of `sampleItemA` normalizes
to `dta000128`, which appears in the generated token set. -/
theorem generateSearchTokens_complete_witness :
    normalizeText (str "DTA-000128") ∈ generateSearchTokens sampleItemA :=
  generateSearchTokens_complete sampleItemA (str "DTA-000128")
    (by decide) (by decide)


/-- A run of in-window checks for one client: each call lands in the open
window started at `t0`, so the record's count grows by one per call while
`windowStart` stays `t0`, and every call is allowed as long as the final
count stays within the maximum. -/
lemma runRateChecks_inWindow (w maxr : Int) :
    ∀ (ts : List Int) (c t0 : Int),
      (∀ t ∈ ts, t0 ≤ t ∧ t - t0 < w) →
      (runRateChecks ⟨w, maxr⟩ ts (some ⟨c, t0⟩)).2
          = some ⟨c + ts.length, t0⟩ ∧
      (c + ts.length ≤ maxr →
        ∀ r ∈ (runRateChecks ⟨w, maxr⟩ ts (some ⟨c, t0⟩)).1,
          r.allowed = true) := by
  intro ts
  induction ts with
  | nil => intro c t0 _; exact ⟨by simp [runRateChecks], by simp [runRateChecks]⟩
  | cons t ts ih =>
    intro c t0 hts
    obtain ⟨ht0, htw⟩ := hts t (List.mem_cons_self t ts)
    have hstep : checkRateLimit ⟨w, maxr⟩ (some ⟨c, t0⟩) t =
        ({ allowed := decide (c + 1 ≤ maxr)
           remaining := max 0 (maxr - (c + 1))
           reset := floorDiv1000 (t0 + w)
           retryAfter :=
             if decide (c + 1 ≤ maxr) then none
             else some (ceilDiv1000 (t0 + w - t)) },
         ⟨c + 1, t0⟩) := by
      simp only [checkRateLimit]
      rw [if_neg (by omega : ¬ (w ≤ t - t0))]
    have hrest := ih (c + 1) t0 (fun u hu => hts u (List.mem_cons_of_mem t hu))
    have hcons : runRateChecks ⟨w, maxr⟩ (t :: ts) (some ⟨c, t0⟩) =
        ((checkRateLimit ⟨w, maxr⟩ (some ⟨c, t0⟩) t).1 ::
          (runRateChecks ⟨w, maxr⟩ ts
            (some (checkRateLimit ⟨w, maxr⟩ (some ⟨c, t0⟩) t).2)).1,
         (runRateChecks ⟨w, maxr⟩ ts
            (some (checkRateLimit ⟨w, maxr⟩ (some ⟨c, t0⟩) t).2)).2) := rfl
    rw [hcons, hstep]
    refine ⟨?_, ?_⟩
    · rw [hrest.1]
      congr 2
      push_cast [List.length_cons]
      ring
    · intro hcap r hr
      rcases List.mem_cons.mp hr with rfl | hr
      · have hlen : (0 : Int) ≤ (ts.length : Int) := by positivity
        have : c + 1 ≤ maxr := by push_cast [List.length_cons] at hcap; omega
        simp [this]
      · refine hrest.2 ?_ r hr
        push_cast [List.length_cons] at hcap ⊢
        omega

/-- C7: with `maxRequests = 10` and one client identifier, the first ten
calls of a fresh window are all allowed; an eleventh call still inside the
window is denied with `Retry-After` equal to
`ceil((windowStart + windowMs - now) / 1000)`; and once the window has
elapsed, the next call is allowed again with `remaining = 10 - 1`. -/
theorem rateLimiter_boundary (w : Int) (t0 : Int)
    (ts : List Int) (hlen : ts.length = 9)
    (hts : ∀ t ∈ ts, t0 ≤ t ∧ t - t0 < w) :
    (∀ r ∈ (runRateChecks ⟨w, 10⟩ (t0 :: ts) none).1, r.allowed = true) ∧
    ∀ t10 : Int, t0 ≤ t10 → t10 - t0 < w →
      (checkRateLimit ⟨w, 10⟩
          (runRateChecks ⟨w, 10⟩ (t0 :: ts) none).2 t10).1.allowed = false ∧
      (checkRateLimit ⟨w, 10⟩
          (runRateChecks ⟨w, 10⟩ (t0 :: ts) none).2 t10).1.retryAfter
        = some (ceilDiv1000 (t0 + w - t10)) ∧
      ∀ tn : Int, w ≤ tn - t0 →
        (checkRateLimit ⟨w, 10⟩
            (some (checkRateLimit ⟨w, 10⟩
              (runRateChecks ⟨w, 10⟩ (t0 :: ts) none).2 t10).2) tn).1.allowed
          = true ∧
        (checkRateLimit ⟨w, 10⟩
            (some (checkRateLimit ⟨w, 10⟩
              (runRateChecks ⟨w, 10⟩ (t0 :: ts) none).2 t10).2) tn).1.remaining
          = 10 - 1 := by
  have hfirst : checkRateLimit ⟨w, 10⟩ none t0 =
      ({ allowed := true, remaining := 9, reset := floorDiv1000 (t0 + w),
         retryAfter := none }, ⟨1, t0⟩) := rfl
  have hcons : runRateChecks ⟨w, 10⟩ (t0 :: ts) none =
      ((checkRateLimit ⟨w, 10⟩ none t0).1 ::
        (runRateChecks ⟨w, 10⟩ ts (some (checkRateLimit ⟨w, 10⟩ none t0).2)).1,
       (runRateChecks ⟨w, 10⟩ ts (some (checkRateLimit ⟨w, 10⟩ none t0).2)).2)
      := rfl
  have hin := runRateChecks_inWindow w 10 ts 1 t0 hts
  have hstate : (runRateChecks ⟨w, 10⟩ (t0 :: ts) none).2 = some ⟨10, t0⟩ := by
    rw [hcons, hfirst]
    rw [hin.1]
    congr 2
    rw [hlen]
    norm_num
  constructor
  · intro r hr
    rw [hcons, hfirst] at hr
    rcases List.mem_cons.mp hr with rfl | hr
    · rfl
    · refine hin.2 ?_ r hr
      rw [hlen]
      norm_num
  · intro t10 ht10a ht10b
    rw [hstate]
    have h11 : checkRateLimit ⟨w, 10⟩ (some ⟨10, t0⟩) t10 =
        ({ allowed := false, remaining := 0, reset := floorDiv1000 (t0 + w),
           retryAfter := some (ceilDiv1000 (t0 + w - t10)) }, ⟨11, t0⟩) := by
      simp only [checkRateLimit]
      rw [if_neg (by omega : ¬ (w ≤ t10 - t0))]
      norm_num
    rw [h11]
    refine ⟨rfl, rfl, ?_⟩
    intro tn htn
    have hfresh : checkRateLimit ⟨w, 10⟩ (some ⟨11, t0⟩) tn =
        ({ allowed := true, remaining := 9, reset := floorDiv1000 (tn + w),
           retryAfter := none }, ⟨1, tn⟩) := by
      simp only [checkRateLimit]
      rw [if_pos (by omega : w ≤ tn - t0)]
      norm_num
    rw [hfresh]
    exact ⟨rfl, by norm_num⟩

/-- Witness for C7 at a concrete schedule: window 60000 ms, calls at
times 0..9 all allowed, an 11th call at time 10 denied with a 60-second
retry delay, and a call at time 60000 allowed again with 9 remaining. -/
theorem rateLimiter_boundary_witness :
    (∀ r ∈ (runRateChecks ⟨60000, 10⟩
        (0 :: [1, 2, 3, 4, 5, 6, 7, 8, 9]) none).1, r.allowed = true) ∧
    (checkRateLimit ⟨60000, 10⟩
        (runRateChecks ⟨60000, 10⟩
          (0 :: [1, 2, 3, 4, 5, 6, 7, 8, 9]) none).2 10).1.allowed = false ∧
    (checkRateLimit ⟨60000, 10⟩
        (runRateChecks ⟨60000, 10⟩
          (0 :: [1, 2, 3, 4, 5, 6, 7, 8, 9]) none).2 10).1.retryAfter
      = some (ceilDiv1000 (0 + 60000 - 10)) ∧
    (checkRateLimit ⟨60000, 10⟩
        (some (checkRateLimit ⟨60000, 10⟩
          (runRateChecks ⟨60000, 10⟩
            (0 :: [1, 2, 3, 4, 5, 6, 7, 8, 9]) none).2 10).2) 60000).1.allowed
      = true ∧
    (checkRateLimit ⟨60000, 10⟩
        (some (checkRateLimit ⟨60000, 10⟩
          (runRateChecks ⟨60000, 10⟩
            (0 :: [1, 2, 3, 4, 5, 6, 7, 8, 9]) none).2 10).2)
        60000).1.remaining = 10 - 1 := by
  have h := rateLimiter_boundary 60000 0
    [1, 2, 3, 4, 5, 6, 7, 8, 9] rfl (by decide)
  have h2 := h.2 10 (by norm_num) (by norm_num)
  have h3 := h2.2.2 60000 (by norm_num)
  exact ⟨h.1, h2.1, h2.2.1, h3.1, h3.2⟩


/-- C2 (refuting evidence): the normalizer is not idempotent on all
strings.  The code lowercases before NFKC-normalizing, so for U+2116
NUMERO SIGN (no lowercase mapping, NFKC decomposition `No`) the first pass
yields `No` and a second pass lowercases it to `no`. -/
theorem normalizeText_not_idempotent :
    normalizeText (normalizeText (str "№")) ≠ normalizeText (str "№") := by
  decide

/-- The adjacent-pair relation of a collapsed string: no two neighbouring
whitespace characters. -/
def noWsPair (a b : Char) : Prop := isJsWs a = false ∨ isJsWs b = false

/-- Transfer of a decidable character property from the ASCII code range
to ASCII characters. -/
lemma ascii_fact {P : Char → Prop} [DecidablePred P]
    (h : ∀ n, n < 128 → P (Char.ofNat n)) :
    ∀ c : Char, c.toNat < 128 → P c := by
  intro c hc
  have := h c.toNat hc
  rwa [Char.ofNat_toNat] at this

/-- On ASCII characters, `jsToLower` stays in ASCII and is idempotent. -/
lemma jsToLower_ascii (c : Char) (hc : c.toNat < 128) :
    (jsToLower c).toNat < 128 ∧ jsToLower (jsToLower c) = jsToLower c :=
  ascii_fact (P := fun c =>
    (jsToLower c).toNat < 128 ∧ jsToLower (jsToLower c) = jsToLower c)
    (by decide) c hc

/-- Every ASCII character is NFKC-invariant. -/
lemma nfkcChar_ascii (c : Char) (hc : c.toNat < 128) : nfkcChar c = [c] :=
  ascii_fact (P := fun c => nfkcChar c = [c]) (by decide) c hc

/-- NFKC is the identity on ASCII strings. -/
lemma jsNfkc_ascii_id (l : Str) (h : ∀ c ∈ l, c.toNat < 128) :
    l.flatMap nfkcChar = l := by
  induction l with
  | nil => rfl
  | cons c rest ih =>
    rw [List.flatMap_cons, nfkcChar_ascii c (h c (List.mem_cons_self c rest)),
      ih (fun d hd => h d (List.mem_cons_of_mem c hd))]
    rfl

/-- A map whose function fixes every element of the list is the identity. -/
lemma map_eq_self_of_fixed {α : Type} (f : α → α) :
    ∀ l : List α, (∀ a ∈ l, f a = a) → l.map f = l := by
  intro l
  induction l with
  | nil => intro _; rfl
  | cons a rest ih =>
    intro h
    rw [List.map_cons, h a (List.mem_cons_self a rest),
      ih (fun d hd => h d (List.mem_cons_of_mem a hd))]

/-- Characters of a collapsed string: the inserted spaces, and the
non-whitespace characters of the input. -/
lemma mem_collapseWsAux (x : Char) :
    ∀ (l : Str) (b : Bool), x ∈ collapseWsAux b l →
      x = ' ' ∨ (x ∈ l ∧ isJsWs x = false) := by
  intro l
  induction l with
  | nil => intro b h; simp [collapseWsAux] at h
  | cons c rest ih =>
    intro b h
    unfold collapseWsAux at h
    by_cases hc : isJsWs c
    · rw [if_pos hc] at h
      have step : x ∈ collapseWsAux true rest →
          x = ' ' ∨ (x ∈ c :: rest ∧ isJsWs x = false) := by
        intro hmem
        rcases ih true hmem with h' | ⟨hm, hw⟩
        · exact .inl h'
        · exact .inr ⟨List.mem_cons_of_mem c hm, hw⟩
      cases b with
      | true => exact step (by rwa [if_pos rfl] at h)
      | false =>
        rw [if_neg (by decide)] at h
        rcases List.mem_cons.mp h with rfl | hmem
        · exact .inl rfl
        · exact step hmem
    · rw [if_neg hc] at h
      rcases List.mem_cons.mp h with rfl | hmem
      · exact .inr ⟨List.mem_cons_self x rest, by simpa using hc⟩
      · rcases ih false hmem with h' | ⟨hm, hw⟩
        · exact .inl h'
        · exact .inr ⟨List.mem_cons_of_mem c hm, hw⟩

/-- A collapsed string that starts inside a whitespace run starts with a
non-whitespace character. -/
lemma collapseWsAux_true_head :
    ∀ (l : Str) (h : Char),
      (collapseWsAux true l).head? = some h → isJsWs h = false := by
  intro l
  induction l with
  | nil => intro h hh; simp [collapseWsAux] at hh
  | cons c rest ih =>
    intro h hh
    unfold collapseWsAux at hh
    by_cases hc : isJsWs c
    · rw [if_pos hc, if_pos rfl] at hh
      exact ih h hh
    · rw [if_neg hc, List.head?_cons] at hh
      injection hh with hh
      subst hh
      simpa using hc

/-- Collapsed strings never contain two adjacent whitespace characters. -/
lemma collapseWsAux_chain :
    ∀ (l : Str) (b : Bool), List.Chain' noWsPair (collapseWsAux b l) := by
  intro l
  induction l with
  | nil => intro b; simp [collapseWsAux]
  | cons c rest ih =>
    intro b
    unfold collapseWsAux
    by_cases hc : isJsWs c
    · rw [if_pos hc]
      cases b with
      | true => exact ih true
      | false =>
        rw [if_neg (by decide), List.chain'_cons']
        refine ⟨?_, ih true⟩
        intro y hy
        exact .inr (collapseWsAux_true_head rest y (Option.mem_def.mp hy))
    · rw [if_neg hc, List.chain'_cons']
      refine ⟨?_, ih false⟩
      intro y _
      exact .inl (by simpa using hc)

/-- The whitespace flag is irrelevant on a string whose head is not
whitespace. -/
lemma collapseWsAux_flag_eq (l : Str)
    (hl : ∀ h, l.head? = some h → isJsWs h = false) :
    collapseWsAux true l = collapseWsAux false l := by
  cases l with
  | nil => rfl
  | cons c rest =>
    have hc : isJsWs c = false := hl c rfl
    simp [collapseWsAux, hc]

/-- Collapsing is the identity on a string whose whitespace characters
are all plain spaces, none adjacent. -/
lemma collapseWs_id :
    ∀ l : Str, (∀ c ∈ l, isJsWs c = true → c = ' ') →
      List.Chain' noWsPair l → collapseWs l = l := by
  intro l
  induction l with
  | nil => intro _ _; rfl
  | cons c rest ih =>
    intro hc hchain
    obtain ⟨hhead, hrest⟩ := List.chain'_cons'.mp hchain
    have hihr : collapseWsAux false rest = rest :=
      ih (fun d hd hwd => hc d (List.mem_cons_of_mem c hd) hwd) hrest
    show collapseWsAux false (c :: rest) = c :: rest
    unfold collapseWsAux
    by_cases hw : isJsWs c
    · rw [if_pos hw, if_neg (by decide)]
      have hcsp : c = ' ' := hc c (List.mem_cons_self c rest) hw
      have hflag : collapseWsAux true rest = collapseWsAux false rest := by
        apply collapseWsAux_flag_eq
        intro h hh
        rcases hhead h (Option.mem_def.mpr hh) with h1 | h1
        · rw [h1] at hw; exact absurd hw (by decide)
        · exact h1
      rw [hflag, hihr, hcsp]
    · rw [if_neg hw, hihr]

/-- The head of a `dropWhile` result fails the dropped predicate. -/
lemma dropWhile_head_false (p : Char → Bool) :
    ∀ (l : Str) (h : Char), (l.dropWhile p).head? = some h → p h = false := by
  intro l
  induction l with
  | nil => intro h hh; simp at hh
  | cons c rest ih =>
    intro h hh
    rw [List.dropWhile_cons] at hh
    by_cases hc : p c
    · rw [if_pos hc] at hh
      exact ih h hh
    · rw [if_neg hc, List.head?_cons] at hh
      injection hh with hh
      subst hh
      simpa using hc

/-- The trimmed string is a prefix of the left-trimmed string. -/
lemma trimWs_prefix_dropWhile (l : Str) :
    trimWs l <+: l.dropWhile isJsWs := by
  unfold trimWs
  obtain ⟨s, hs⟩ :=
    List.dropWhile_suffix (l := (l.dropWhile isJsWs).reverse) isJsWs
  refine ⟨s.reverse, ?_⟩
  rw [← List.reverse_append, hs, List.reverse_reverse]

/-- The trimmed string occurs contiguously inside the original. -/
lemma trimWs_contiguous (l : Str) : trimWs l <:+: l :=
  (trimWs_prefix_dropWhile l).isInfix.trans
    (List.dropWhile_suffix isJsWs).isInfix

/-- A trimmed string does not start with whitespace. -/
lemma trimWs_head_false (l : Str) :
    ∀ h, (trimWs l).head? = some h → isJsWs h = false := by
  intro h hh
  obtain ⟨r, hr⟩ := trimWs_prefix_dropWhile l
  cases htw : trimWs l with
  | nil => rw [htw] at hh; simp at hh
  | cons x xs =>
    rw [htw] at hh hr
    rw [List.head?_cons] at hh
    injection hh with hh
    subst hh
    apply dropWhile_head_false isJsWs l x
    rw [← hr]
    rfl

/-- A trimmed string does not end with whitespace. -/
lemma trimWs_getLast_false (l : Str) :
    ∀ h, (trimWs l).getLast? = some h → isJsWs h = false := by
  intro h hh
  unfold trimWs at hh
  rw [List.getLast?_reverse] at hh
  exact dropWhile_head_false isJsWs _ h hh

/-- Trimming is the identity on a string with non-whitespace ends. -/
lemma trimWs_id (l : Str)
    (h1 : ∀ h, l.head? = some h → isJsWs h = false)
    (h2 : ∀ h, l.getLast? = some h → isJsWs h = false) :
    trimWs l = l := by
  have hd : l.dropWhile isJsWs = l := by
    cases l with
    | nil => rfl
    | cons c rest =>
      have := h1 c rfl
      rw [List.dropWhile_cons, if_neg (by simp [this])]
  have hrev : l.reverse.dropWhile isJsWs = l.reverse := by
    cases hl' : l.reverse with
    | nil => rfl
    | cons c rest =>
      have hc : l.getLast? = some c := by
        rw [← List.head?_reverse, hl', List.head?_cons]
      have := h2 c hc
      rw [List.dropWhile_cons, if_neg (by simp [this])]
  unfold trimWs
  rw [hd, hrev, List.reverse_reverse]

/-- Canonical shape of a normalizer output on ASCII input: ASCII
characters fixed by lowercasing that survive the strip, whitespace only
as isolated interior spaces. -/
lemma normalizeText_canon (s : Str) (hs : ∀ c ∈ s, c.toNat < 128) :
    (∀ c ∈ normalizeText s,
        c.toNat < 128 ∧ jsToLower c = c ∧ keepChar c = true ∧
          (isJsWs c = true → c = ' ')) ∧
    List.Chain' noWsPair (normalizeText s) ∧
    (∀ h, (normalizeText s).head? = some h → isJsWs h = false) ∧
    (∀ h, (normalizeText s).getLast? = some h → isJsWs h = false) := by
  have hm0 : ∀ c ∈ s.map jsToLower, c.toNat < 128 ∧ jsToLower c = c := by
    intro c hc
    obtain ⟨d, hd, rfl⟩ := List.mem_map.mp hc
    exact jsToLower_ascii d (hs d hd)
  have hnf : (s.map jsToLower).flatMap nfkcChar = s.map jsToLower :=
    jsNfkc_ascii_id _ (fun c hc => (hm0 c hc).1)
  have hnorm : normalizeText s
      = trimWs (collapseWs ((s.map jsToLower).filter keepChar)) := by
    unfold normalizeText
    rw [hnf]
  have hmprops : ∀ c ∈ (s.map jsToLower).filter keepChar,
      c.toNat < 128 ∧ jsToLower c = c ∧ keepChar c = true := by
    intro c hc
    obtain ⟨hc1, hc2⟩ := List.mem_filter.mp hc
    exact ⟨(hm0 c hc1).1, (hm0 c hc1).2, hc2⟩
  have hyprops : ∀ c ∈ collapseWs ((s.map jsToLower).filter keepChar),
      c.toNat < 128 ∧ jsToLower c = c ∧ keepChar c = true ∧
        (isJsWs c = true → c = ' ') := by
    intro c hc
    rcases mem_collapseWsAux c _ false hc with rfl | ⟨hcm, hw⟩
    · exact ⟨by decide, by decide, by decide, fun _ => rfl⟩
    · obtain ⟨p1, p2, p3⟩ := hmprops c hcm
      exact ⟨p1, p2, p3, fun hww => absurd hww (by simp [hw])⟩
  refine ⟨?_, ?_, ?_, ?_⟩
  · intro c hc
    rw [hnorm] at hc
    exact hyprops c ((trimWs_contiguous _).subset hc)
  · rw [hnorm]
    exact List.Chain'.infix (collapseWsAux_chain _ false) (trimWs_contiguous _)
  · intro h hh
    rw [hnorm] at hh
    exact trimWs_head_false _ h hh
  · intro h hh
    rw [hnorm] at hh
    exact trimWs_getLast_false _ h hh

/-- Strings of the canonical shape are fixed points of the normalizer. -/
lemma normalizeText_fixed (z : Str)
    (hchars : ∀ c ∈ z, c.toNat < 128 ∧ jsToLower c = c ∧ keepChar c = true ∧
      (isJsWs c = true → c = ' '))
    (hchain : List.Chain' noWsPair z)
    (hhead : ∀ h, z.head? = some h → isJsWs h = false)
    (hlast : ∀ h, z.getLast? = some h → isJsWs h = false) :
    normalizeText z = z := by
  have h1 : z.map jsToLower = z :=
    map_eq_self_of_fixed jsToLower z (fun c hc => (hchars c hc).2.1)
  have h2 : z.flatMap nfkcChar = z :=
    jsNfkc_ascii_id z (fun c hc => (hchars c hc).1)
  have h3 : z.filter keepChar = z :=
    List.filter_eq_self.mpr (fun c hc => (hchars c hc).2.2.1)
  have h4 : collapseWs z = z :=
    collapseWs_id z (fun c hc => (hchars c hc).2.2.2) hchain
  have h5 : trimWs z = z := trimWs_id z hhead hlast
  unfold normalizeText
  rw [h1, h2, h3, h4, h5]

/-- C2 (amended): on strings of ASCII characters the normalizer is
idempotent — the first pass leaves a lowercase, stripped, space-collapsed,
trimmed string that every later pass fixes. -/
theorem normalizeText_idempotent_ascii (s : Str)
    (hs : ∀ c ∈ s, c.toNat < 128) :
    normalizeText (normalizeText s) = normalizeText s := by
  obtain ⟨hchars, hchain, hhead, hlast⟩ := normalizeText_canon s hs
  exact normalizeText_fixed _ hchars hchain hhead hlast

/-- Witness for the amended C2 at a concrete ASCII string with uppercase
letters, symbols and whitespace runs. -/
theorem normalizeText_idempotent_ascii_witness :
    normalizeText (normalizeText (str "  The KUNE-kune  tape!!  "))
      = normalizeText (str "  The KUNE-kune  tape!!  ") :=
  normalizeText_idempotent_ascii (str "  The KUNE-kune  tape!!  ")
    (by decide)

end DTA
